import Mathlib

/-!
Verification of the libiocage provisioning CLI (`iocage/cli/create.py`) and
of the JSON configuration codec (`libiocage/lib/Config/Type/JSON.py`).

The Python code is shallowly embedded: the CLI entry point `cli` becomes a
pure function from its arguments and its external collaborators (host release
inventory, per-unit creation results) to an explicit result value recording
the exit path, the per-unit outcomes, and the number of fetch invocations.
-/

namespace Iocage

/-- A property value as it appears in the flat configuration object and in the
CLI's `jail_data` dict: the visible source stores strings (`name`,
`basejail_type`, every `key=value` override value) and booleans (`basejail`);
the persisted format also carries integers. -/
inductive JVal where
  | str (s : List Char)
  | bool (b : Bool)
  | int (i : Int)
deriving DecidableEq

/-- A property store: the flat object of property-name to value, as an
insertion-ordered association list (a Python dict). -/
abbrev PropertyStore := List (List Char × JVal)

/-- Python dict assignment `d[k] = v`: replace in place when the key exists,
append otherwise (insertion order preserved). -/
def dictSet : PropertyStore → List Char → JVal → PropertyStore
  | [], k, v => [(k, v)]
  | (k2, v2) :: rest, k, v =>
    if k2 = k then (k, v) :: rest else (k2, v2) :: dictSet rest k v

/-- Python dict lookup `d[k]`, as an `Option`. -/
def dictGet : PropertyStore → List Char → Option JVal
  | [], _ => none
  | (k2, v2) :: rest, k => if k2 = k then some v2 else dictGet rest k

/-- The character for a decimal digit value below ten. -/
def digitChar (d : Nat) : Char := Char.ofNat (48 + d)

/-- Whether a character is a decimal digit. -/
def isDig (c : Char) : Bool := 48 ≤ c.toNat && c.toNat ≤ 57

/-- The digit value of a decimal digit character. -/
def digVal (c : Char) : Nat := c.toNat - 48

/-- The decimal digits of a natural number, most significant first. -/
def natChars (n : Nat) : List Char :=
  if _h : n < 10 then [digitChar n]
  else natChars (n / 10) ++ [digitChar (n % 10)]
decreasing_by exact Nat.div_lt_self (by omega) (by omega)

/-- The decimal rendering of an integer. -/
def intChars (i : Int) : List Char :=
  if i < 0 then '-' :: natChars i.natAbs else natChars i.natAbs

/-- String escaping of the structured-text format: quote and backslash are
escaped with a backslash, every other character passes through. -/
def escChar (c : Char) : List Char :=
  if c = '"' ∨ c = '\\' then ['\\', c] else [c]

/-- The escaped body of a string value, including the closing quote. -/
def encBody : List Char → List Char
  | [] => ['"']
  | c :: cs => escChar c ++ encBody cs

/-- A serialized string value: opening quote, escaped body, closing quote. -/
def encStr (s : List Char) : List Char := '"' :: encBody s

/-- A serialized property value. -/
def encVal : JVal → List Char
  | .str s => encStr s
  | .bool true => ['t', 'r', 'u', 'e']
  | .bool false => ['f', 'a', 'l', 's', 'e']
  | .int i => intChars i

/-- A serialized `key: value` member of the object. -/
def encEntry : List Char × JVal → List Char
  | (k, v) => encStr k ++ ':' :: encVal v

/-- The members after the first one, each preceded by a comma, followed by the
closing brace. -/
def encTail : PropertyStore → List Char
  | [] => ['}']
  | e :: es => ',' :: encEntry e ++ encTail es

/-- Modelled from the spec: `ConfigJSON.map_output` delegates to
`libiocage.lib.helpers.to_json`, which is not under `src/`; per the spec the
persisted form is a flat structured-text object of property-name to value.
This is the serializer of that object. -/
def encObj : PropertyStore → List Char
  | [] => ['{', '}']
  | e :: es => '{' :: encEntry e ++ encTail es

/-- Parse the body of a string value up to its closing quote, undoing the
backslash escapes. -/
def parseStrBody : List Char → Option (List Char × List Char)
  | [] => none
  | c :: rest =>
    if c = '"' then some ([], rest)
    else if c = '\\' then
      match rest with
      | [] => none
      | c2 :: rest2 => (parseStrBody rest2).map fun p => (c2 :: p.1, p.2)
    else (parseStrBody rest).map fun p => (c :: p.1, p.2)

/-- Split off the longest leading run of decimal digits. -/
def takeDigs : List Char → List Char × List Char
  | [] => ([], [])
  | c :: cs =>
    if isDig c then
      let p := takeDigs cs
      (c :: p.1, p.2)
    else ([], c :: cs)

/-- The numeric value of a run of decimal digits, most significant first. -/
def natVal (ds : List Char) : Nat := ds.foldl (fun a c => a * 10 + digVal c) 0

/-- Parse a nonempty run of decimal digits into its value. -/
def parseNat (l : List Char) : Option (Nat × List Char) :=
  match takeDigs l with
  | ([], _) => none
  | (ds, r) => some (natVal ds, r)

/-- Parse one property value: a string, a boolean literal, or an optionally
negated run of digits. -/
def parseVal (l : List Char) : Option (JVal × List Char) :=
  match l with
  | [] => none
  | c :: rest =>
    if c = '"' then (parseStrBody rest).map fun p => (.str p.1, p.2)
    else if c = 't' then
      match rest with
      | 'r' :: 'u' :: 'e' :: r => some (.bool true, r)
      | _ => none
    else if c = 'f' then
      match rest with
      | 'a' :: 'l' :: 's' :: 'e' :: r => some (.bool false, r)
      | _ => none
    else if c = '-' then (parseNat rest).map fun p => (.int (-(p.1 : Int)), p.2)
    else (parseNat l).map fun p => (.int (p.1 : Int), p.2)

/-- Parse one `key: value` member of the object. -/
def parseEntry (l : List Char) : Option ((List Char × JVal) × List Char) :=
  match l with
  | '"' :: rest =>
    (parseStrBody rest).bind fun p =>
      match p.2 with
      | ':' :: r2 => (parseVal r2).map fun q => ((p.1, q.1), q.2)
      | _ => none
  | _ => none

/-- Parse a nonempty comma-separated member list up to the closing brace.
The fuel argument bounds the number of members. -/
def parseEntries : Nat → List Char → Option (PropertyStore × List Char)
  | 0, _ => none
  | fuel + 1, l =>
    (parseEntry l).bind fun p =>
      match p.2 with
      | '}' :: r2 => some ([p.1], r2)
      | ',' :: r2 => (parseEntries fuel r2).map fun q => (p.1 :: q.1, q.2)
      | _ => none

/-- Modelled from the spec: `ConfigJSON.map_input` delegates to `json.load`;
this is the matching deserializer of the flat structured-text object. -/
def decodeObj (l : List Char) : Option PropertyStore :=
  match l with
  | '{' :: rest =>
    if rest = ['}'] then some []
    else
      (parseEntries (rest.length + 1) rest).bind fun p =>
        if p.2 = [] then some p.1 else none
  | _ => none

namespace ConfigJSON

/-- `ConfigJSON.map_output` from `libiocage/lib/Config/Type/JSON.py`:
serialize the property dict to structured text. -/
def map_output (s : PropertyStore) : List Char := encObj s

/-- `ConfigJSON.map_input` from `libiocage/lib/Config/Type/JSON.py`:
deserialize structured text into the property dict. -/
def map_input (l : List Char) : Option PropertyStore := decodeObj l

end ConfigJSON

/-- Whether the first character, if any, is a decimal digit. -/
def digHead : List Char → Bool
  | [] => false
  | c :: _ => isDig c

theorem isDig_digitChar {d : Nat} (h : d < 10) : isDig (digitChar d) = true := by
  interval_cases d <;> decide

theorem digVal_digitChar {d : Nat} (h : d < 10) : digVal (digitChar d) = d := by
  interval_cases d <;> decide

theorem natChars_all_dig (n : Nat) : ∀ c ∈ natChars n, isDig c = true := by
  induction n using Nat.strong_induction_on with
  | _ n ih =>
    rw [natChars]
    split
    · next h =>
      intro c hc
      simp only [List.mem_singleton] at hc
      subst hc
      exact isDig_digitChar h
    · next h =>
      intro c hc
      rcases List.mem_append.mp hc with h2 | h2
      · exact ih (n / 10) (Nat.div_lt_self (by omega) (by omega)) c h2
      · simp only [List.mem_singleton] at h2
        subst h2
        exact isDig_digitChar (Nat.mod_lt _ (by omega))

theorem natChars_ne_nil (n : Nat) : natChars n ≠ [] := by
  rw [natChars]
  split <;> simp

theorem natVal_append_digit (ds : List Char) (c : Char) :
    natVal (ds ++ [c]) = natVal ds * 10 + digVal c := by
  simp [natVal, List.foldl_append]

theorem natVal_natChars (n : Nat) : natVal (natChars n) = n := by
  induction n using Nat.strong_induction_on with
  | _ n ih =>
    rw [natChars]
    split
    · next h =>
      simp [natVal, digVal_digitChar h]
    · next h =>
      rw [natVal_append_digit, ih (n / 10) (Nat.div_lt_self (by omega) (by omega)),
        digVal_digitChar (Nat.mod_lt _ (by omega))]
      omega

theorem takeDigs_append (ds rest : List Char) (h1 : ∀ c ∈ ds, isDig c = true)
    (h2 : digHead rest = false) : takeDigs (ds ++ rest) = (ds, rest) := by
  induction ds with
  | nil =>
    cases rest with
    | nil => rfl
    | cons c cs =>
      simp only [digHead] at h2
      simp [takeDigs, h2]
  | cons c cs ih =>
    simp only [List.cons_append, takeDigs, h1 c (by simp), if_true]
    show (c :: (takeDigs (cs ++ rest)).1, (takeDigs (cs ++ rest)).2) = (c :: cs, rest)
    rw [ih (fun x hx => h1 x (by simp [hx]))]

theorem parseNat_natChars (n : Nat) (rest : List Char) (h : digHead rest = false) :
    parseNat (natChars n ++ rest) = some (n, rest) := by
  unfold parseNat
  rw [takeDigs_append _ _ (natChars_all_dig n) h]
  obtain ⟨c, cs, hc⟩ := List.exists_cons_of_ne_nil (natChars_ne_nil n)
  rw [hc]
  show some (natVal (c :: cs), rest) = some (n, rest)
  rw [← hc, natVal_natChars]

theorem parseStrBody_cons (c : Char) (rest : List Char) :
    parseStrBody (c :: rest) =
      if c = '"' then some ([], rest)
      else if c = '\\' then
        match rest with
        | [] => none
        | c2 :: rest2 => (parseStrBody rest2).map fun p => (c2 :: p.1, p.2)
      else (parseStrBody rest).map fun p => (c :: p.1, p.2) := by
  cases rest <;> rfl

theorem parseStrBody_enc (s rest : List Char) :
    parseStrBody (encBody s ++ rest) = some (s, rest) := by
  induction s with
  | nil =>
    show parseStrBody ('"' :: rest) = some ([], rest)
    rw [parseStrBody_cons]
    simp
  | cons c cs ih =>
    by_cases hc : c = '"' ∨ c = '\\'
    · have he : encBody (c :: cs) ++ rest = '\\' :: c :: (encBody cs ++ rest) := by
        simp [encBody, escChar, hc]
      rw [he, parseStrBody_cons, if_neg (by decide), if_pos rfl]
      show (parseStrBody (encBody cs ++ rest)).map (fun p => (c :: p.1, p.2)) =
        some (c :: cs, rest)
      rw [ih]
      rfl
    · push_neg at hc
      have he : encBody (c :: cs) ++ rest = c :: (encBody cs ++ rest) := by
        simp [encBody, escChar, hc.1, hc.2]
      rw [he, parseStrBody_cons, if_neg hc.1, if_neg hc.2, ih]
      rfl

theorem isDig_ne_lit {c : Char} (h : isDig c = true) :
    c ≠ '"' ∧ c ≠ 't' ∧ c ≠ 'f' ∧ c ≠ '-' := by
  refine ⟨?_, ?_, ?_, ?_⟩ <;> rintro rfl <;> exact absurd h (by decide)

theorem parseVal_enc (v : JVal) (rest : List Char) (h : digHead rest = false) :
    parseVal (encVal v ++ rest) = some (v, rest) := by
  cases v with
  | str s =>
    simp [encVal, encStr, parseVal, parseStrBody_enc]
  | bool b =>
    cases b <;> simp [encVal, parseVal]
  | int i =>
    by_cases hi : i < 0
    · have hEnc : encVal (.int i) = '-' :: natChars i.natAbs := by
        simp [encVal, intChars, hi]
      rw [hEnc, List.cons_append]
      simp only [parseVal, parseNat_natChars _ _ h, Option.map_some]
      rw [if_neg (by decide), if_neg (by decide), if_neg (by decide)]
      show some (JVal.int (-((i.natAbs : Int))), rest) = some (JVal.int i, rest)
      rw [show -((i.natAbs : Int)) = i by omega]
    · have he : encVal (.int i) = natChars i.natAbs := by
        simp [encVal, intChars, hi]
      obtain ⟨c, cs, hc⟩ := List.exists_cons_of_ne_nil (natChars_ne_nil i.natAbs)
      have hdig : isDig c = true := natChars_all_dig i.natAbs c (by rw [hc]; simp)
      obtain ⟨n1, n2, n3, n4⟩ := isDig_ne_lit hdig
      rw [he, hc]
      simp only [List.cons_append, parseVal, n1, n2, n3, n4, if_false]
      rw [show c :: (cs ++ rest) = (c :: cs) ++ rest from rfl, ← hc,
        parseNat_natChars _ _ h]
      simp
      omega

theorem parseEntry_enc (k : List Char) (v : JVal) (rest : List Char)
    (h : digHead rest = false) :
    parseEntry (encEntry (k, v) ++ rest) = some ((k, v), rest) := by
  have he : encEntry (k, v) ++ rest = '"' :: (encBody k ++ (':' :: (encVal v ++ rest))) := by
    simp [encEntry, encStr]
  rw [he]
  simp [parseEntry, parseStrBody_enc, parseVal_enc _ _ h]

theorem encTail_len (es : PropertyStore) : es.length ≤ (encTail es).length := by
  induction es with
  | nil => simp [encTail]
  | cons e es ih =>
    simp only [encTail, List.length_cons, List.length_append]
    omega

theorem parseEntries_enc (es : PropertyStore) :
    ∀ (e : List Char × JVal) (fuel : Nat), es.length < fuel →
      parseEntries fuel (encEntry e ++ encTail es) = some (e :: es, []) := by
  induction es with
  | nil =>
    intro e fuel h
    obtain ⟨f, rfl⟩ : ∃ f, fuel = f + 1 := ⟨fuel - 1, by omega⟩
    obtain ⟨k, v⟩ := e
    have ht : encTail [] = ['}'] := rfl
    rw [ht]
    simp [parseEntries, parseEntry_enc k v ['}'] rfl]
  | cons e2 es ih =>
    intro e fuel h
    obtain ⟨f, rfl⟩ : ∃ f, fuel = f + 1 := ⟨fuel - 1, by omega⟩
    obtain ⟨k, v⟩ := e
    have ht : encTail (e2 :: es) = ',' :: (encEntry e2 ++ encTail es) := by
      simp [encTail]
    rw [ht]
    have hd : digHead (',' :: (encEntry e2 ++ encTail es)) = false := rfl
    simp only [parseEntries, parseEntry_enc k v _ hd, Option.bind_eq_bind,
      Option.some_bind]
    simp only [ih e2 f (by simpa using h)]
    rfl

/-- The codec round-trip on the flat property object. -/
theorem decodeObj_encObj (s : PropertyStore) : decodeObj (encObj s) = some s := by
  cases s with
  | nil => rfl
  | cons e es =>
    have h1 : encObj (e :: es) = '{' :: (encEntry e ++ encTail es) := by
      simp [encObj]
    obtain ⟨k, v⟩ := e
    have h2 : encEntry (k, v) ++ encTail es = '"' :: (encBody k ++ (':' :: (encVal v ++ encTail es))) := by
      simp [encEntry, encStr]
    have hne : encEntry (k, v) ++ encTail es ≠ ['}'] := by
      rw [h2]
      intro hcontra
      exact absurd (List.head_eq_of_cons_eq hcontra) (by decide)
    rw [h1]
    simp only [decodeObj, hne, if_false]
    have hlen : es.length < (encEntry (k, v) ++ encTail es).length + 1 := by
      have := encTail_len es
      simp only [List.length_append]
      omega
    rw [parseEntries_enc es (k, v) _ hlen]
    rfl

/-- The class of a Python exception raised during unit creation:
`iocage.lib.errors.IocageException` or anything else. -/
inductive Exc where
  | iocage
  | other
deriving DecidableEq

/-- The result of `jail.create(resource)` for one unit of the batch: normal
return, or an exception of the given class. -/
inductive UnitResult where
  | ok
  | raises (e : Exc)
deriving DecidableEq

/-- The per-unit outcome the batch loop logs for unit `i`: the success message
or the `could not be created` warning. -/
inductive Outcome where
  | success (i : Nat)
  | failure (i : Nat)
deriving DecidableEq

/-- The resolved source the batch creates from: a `ReleaseGenerator` for a
release name, or a `JailGenerator` for a template name. -/
inductive Resource where
  | release (name : String)
  | template (name : String)
deriving DecidableEq

/-- The `exit(1)` sites of `cli` before the batch loop, named after the
spec's error kinds: the `does not exist` release error, the `--no-fetch`
error, the dead `No release or jail selected` branch, the
`--basejail-type without --basejail` error, and the `Invalid property` error. -/
inductive CliError where
  | sourceNotFound (name : String)
  | sourceNotFetched (name : String)
  | noSourceSelected
  | basejailTypeWithoutBasejail
  | malformedPropertyToken (tok : List Char)
deriving DecidableEq

/-- Inventory state of a release, as exposed by `ReleaseGenerator.fetched`
and `ReleaseGenerator.available`. -/
structure ReleaseStatus where
  fetched : Bool
  available : Bool
deriving DecidableEq

/-- The external collaborators `cli` consumes: the host's release version,
the release inventory, and the result of `jail.create` per unit index. -/
structure Env where
  hostReleaseVersion : String
  releaseStatus : String → ReleaseStatus
  unitResult : Nat → UnitResult

/-- The arguments of the `create` command after `click` parsing. `count` is
already normalized by `validate_count`. `pkglist`, `empty` and `force` do not
affect the embedded control flow and are omitted. -/
structure CliArgs where
  release : Option String
  template : Option String
  count : Nat
  props : List (List Char)
  name : Option String
  basejail : Bool
  basejailType : Option String
  noFetch : Bool
deriving DecidableEq

/-- The observable result of one `cli` run: an `exit(1)` before the batch
loop, an uncaught exception escaping the loop, or the final
`exit(int(errors))`. Each constructor records the number of
`resource.fetch()` invocations; the last two also record the per-unit
outcomes, the `jail_data` dict shared by all units, and the resolved
resource. -/
inductive CliResult where
  | exitErr (e : CliError) (fetchCount : Nat)
  | uncaught (e : Exc) (outcomes : List Outcome) (fetchCount : Nat)
      (jailData : PropertyStore) (resource : Resource)
  | done (exitCode : Nat) (outcomes : List Outcome) (fetchCount : Nat)
      (jailData : PropertyStore) (resource : Resource)
deriving DecidableEq

/-- The number of `resource.fetch()` invocations recorded in a result. -/
def fetchCountOf : CliResult → Nat
  | .exitErr _ fc => fc
  | .uncaught _ _ fc _ _ => fc
  | .done _ _ fc _ _ => fc

/-- `prop.split("=", maxsplit=1)` unpacked into two names: split the token at
its first `=`; `none` models the `ValueError` of a token without `=`. -/
def splitEq : List Char → Option (List Char × List Char)
  | [] => none
  | c :: cs =>
    if c = '=' then some ([], cs)
    else (splitEq cs).map fun p => (c :: p.1, p.2)

/-- The `props` loop of `cli` (lines 147-154): each token is split at its
first `=` and stored into `jail_data`; a token without `=` logs
`Invalid property` and exits. -/
def applyProps (jd : PropertyStore) : List (List Char) → Except CliError PropertyStore
  | [] => .ok jd
  | tok :: rest =>
    match splitEq tok with
    | some p => applyProps (dictSet jd p.1 (.str p.2)) rest
    | none => .error (.malformedPropertyToken tok)

/-- Source resolution in `cli` (lines 101-135): the release branch queries
the inventory, errors when the release neither is fetched nor exists, errors
under `--no-fetch` when it is only available remotely, and otherwise fetches
it once; the template branch constructs a `JailGenerator`. Returns the
resource together with the number of `resource.fetch()` calls. -/
def resolveSource (rel tmpl : Option String) (noFetch : Bool) (env : Env) :
    Except CliError (Resource × Nat) :=
  match rel with
  | some r =>
    if (env.releaseStatus r).fetched then .ok (.release r, 0)
    else if !(env.releaseStatus r).available then .error (.sourceNotFound r)
    else if noFetch then .error (.sourceNotFetched r)
    else .ok (.release r, 1)
  | none =>
    match tmpl with
    | some t => .ok (.template t, 0)
    | none => .error .noSourceSelected

/-- The batch loop body from index `i` with `fuel` iterations left: a normal
return logs the success message, an `IocageException` is caught and logs the
warning, and any other exception escapes the loop at once. -/
def runBatchAux (u : Nat → UnitResult) : Nat → Nat → List Outcome × Option Exc
  | _, 0 => ([], none)
  | i, fuel + 1 =>
    match u i with
    | .ok =>
      let p := runBatchAux u (i + 1) fuel
      (.success i :: p.1, p.2)
    | .raises .iocage =>
      let p := runBatchAux u (i + 1) fuel
      (.failure i :: p.1, p.2)
    | .raises .other => ([], some .other)

/-- The `for i in range(count)` batch loop of `cli` (lines 157-177). -/
def runBatch (count : Nat) (u : Nat → UnitResult) : List Outcome × Option Exc :=
  runBatchAux u 0 count

/-- The outcome unit `i` logs when its creation stays inside the loop. -/
def outcomeOf (u : Nat → UnitResult) (i : Nat) : Outcome :=
  match u i with
  | .ok => .success i
  | .raises _ => .failure i

/-- Shallow embedding of `cli` from `iocage/cli/create.py`: host-default
release substitution, `jail_data` construction (`name` under Python
truthiness, `basejail`, the `basejail_type` guard, property tokens), source
resolution with on-demand fetch, the batch loop, and the final
`exit(int(errors))` with the `errors` flag never set after its
initialization to `False`. -/
def cli (args : CliArgs) (env : Env) : CliResult :=
  let rel : Option String :=
    match args.release, args.template with
    | none, none => some env.hostReleaseVersion
    | r, _ => r
  let jd1 : PropertyStore :=
    match args.name with
    | some n => if n = "" then [] else dictSet [] "name".toList (.str n.toList)
    | none => []
  match resolveSource rel args.template args.noFetch env with
  | .error e => .exitErr e 0
  | .ok pr =>
    let jd2 := if args.basejail then dictSet jd1 "basejail".toList (.bool true) else jd1
    if args.basejailType.isSome && !args.basejail then
      .exitErr .basejailTypeWithoutBasejail pr.2
    else
      let jd3 :=
        match args.basejailType with
        | some bt => dictSet jd2 "basejail_type".toList (.str bt.toList)
        | none => jd2
      match applyProps jd3 args.props with
      | .error e => .exitErr e pr.2
      | .ok jd =>
        let p := runBatch args.count env.unitResult
        match p.2 with
        | some e => .uncaught e p.1 pr.2 jd pr.1
        | none => .done 0 p.1 pr.2 jd pr.1

/-- Model of Python's built-in `int` applied to a string: an optional run of
surrounding spaces, an optional sign, then a nonempty run of decimal digits;
anything else raises `ValueError` (`none`). -/
def pyInt (s : List Char) : Option Int :=
  let t := ((s.dropWhile (· = ' ')).reverse.dropWhile (· = ' ')).reverse
  match t with
  | [] => none
  | c :: cs =>
    if c = '-' then
      if cs ≠ [] ∧ cs.all isDig then some (-((natVal cs : Int))) else none
    else if c = '+' then
      if cs ≠ [] ∧ cs.all isDig then some ((natVal cs : Int)) else none
    else if (c :: cs).all isDig then some ((natVal (c :: cs) : Int)) else none

/-- `validate_count` from `iocage/cli/create.py` on string input: remove all
commas, then convert with `int`; a `ValueError` is logged and exits the
process (`.error`). -/
def validate_count (value : String) : Except Unit Int :=
  match pyInt (value.toList.filter (· ≠ ',')) with
  | some n => .ok n
  | none => .error ()

theorem range_map_shift {α : Type} (f : Nat → α) (a m : Nat) :
    (List.range (m + 1)).map (fun j => f (a + j)) =
      f a :: (List.range m).map (fun j => f (a + 1 + j)) := by
  rw [List.range_succ_eq_map, List.map_cons, List.map_map]
  refine congrArg₂ List.cons (by simp) ?_
  have hfun : ((fun j => f (a + j)) ∘ Nat.succ) = fun j => f (a + 1 + j) := by
    funext j
    simp only [Function.comp]
    congr 1
    omega
  rw [hfun]

theorem runBatchAux_total (u : Nat → UnitResult) (h : ∀ i, u i ≠ .raises .other) :
    ∀ (n a : Nat),
      runBatchAux u a n = ((List.range n).map (fun j => outcomeOf u (a + j)), none) := by
  intro n
  induction n with
  | zero => intro a; rfl
  | succ m ih =>
    intro a
    cases hu : u a with
    | ok =>
      have hstep : runBatchAux u a (m + 1) =
          (.success a :: (runBatchAux u (a + 1) m).1, (runBatchAux u (a + 1) m).2) := by
        simp [runBatchAux, hu]
      rw [hstep, ih (a + 1), range_map_shift]
      simp [outcomeOf, hu]
    | raises e =>
      cases e with
      | iocage =>
        have hstep : runBatchAux u a (m + 1) =
            (.failure a :: (runBatchAux u (a + 1) m).1, (runBatchAux u (a + 1) m).2) := by
          simp [runBatchAux, hu]
        rw [hstep, ih (a + 1), range_map_shift]
        simp [outcomeOf, hu]
      | other => exact absurd hu (h a)

theorem runBatchAux_stop (u : Nat → UnitResult) :
    ∀ (k n a : Nat), k < n → u (a + k) = .raises .other →
      (∀ j, j < k → u (a + j) ≠ .raises .other) →
      runBatchAux u a n = ((List.range k).map (fun j => outcomeOf u (a + j)), some .other) := by
  intro k
  induction k with
  | zero =>
    intro n a h1 h2 _
    obtain ⟨m, rfl⟩ : ∃ m, n = m + 1 := ⟨n - 1, by omega⟩
    have hu : u a = .raises .other := by simpa using h2
    simp [runBatchAux, hu]
  | succ kk ih =>
    intro n a h1 h2 h3
    obtain ⟨m, rfl⟩ : ∃ m, n = m + 1 := ⟨n - 1, by omega⟩
    have h0 : u a ≠ .raises .other := by simpa using h3 0 (by omega)
    have hrec := ih m (a + 1) (by omega)
      (by rw [show a + 1 + kk = a + (kk + 1) by omega]; exact h2)
      (by intro j hj
          rw [show a + 1 + j = a + (j + 1) by omega]
          exact h3 (j + 1) (by omega))
    cases hu : u a with
    | ok =>
      have hstep : runBatchAux u a (m + 1) =
          (.success a :: (runBatchAux u (a + 1) m).1, (runBatchAux u (a + 1) m).2) := by
        simp [runBatchAux, hu]
      rw [hstep, hrec, range_map_shift]
      simp [outcomeOf, hu]
    | raises e =>
      cases e with
      | iocage =>
        have hstep : runBatchAux u a (m + 1) =
            (.failure a :: (runBatchAux u (a + 1) m).1, (runBatchAux u (a + 1) m).2) := by
          simp [runBatchAux, hu]
        rw [hstep, hrec, range_map_shift]
        simp [outcomeOf, hu]
      | other => exact absurd hu h0

theorem splitEq_none (t : List Char) (h : '=' ∉ t) : splitEq t = none := by
  induction t with
  | nil => rfl
  | cons c cs ih =>
    have hc : c ≠ '=' := fun hx => h (by simp [hx])
    simp [splitEq, hc, ih (fun hx => h (by simp [hx]))]

theorem splitEq_key (k v : List Char) (h : '=' ∉ k) :
    splitEq (k ++ '=' :: v) = some (k, v) := by
  induction k with
  | nil => simp [splitEq]
  | cons c cs ih =>
    have hc : c ≠ '=' := fun hx => h (by simp [hx])
    simp [splitEq, hc, ih (fun hx => h (by simp [hx]))]

/-- C1: the claim says the exit status is non-zero when a unit of the batch
failed; in the code the `errors` flag is initialized to `False` at line 156
and never set afterwards, so `exit(int(errors))` always exits 0. Here a
count-1 batch whose only unit fails with an `IocageException` still ends in
`exit(0)` while its outcome list records the failure. -/
theorem c1_failed_batch_exits_zero :
    cli { release := some "11.1-RELEASE", template := none, count := 1, props := [],
          name := none, basejail := false, basejailType := none, noFetch := false }
        { hostReleaseVersion := "x", releaseStatus := fun _ => ⟨true, true⟩,
          unitResult := fun _ => .raises .iocage } =
      .done 0 [.failure 0] 0 [] (.release "11.1-RELEASE") := by decide

/-- C2: a unit failing with an `IocageException` is recorded as a failure
outcome for that unit only and every later unit is still attempted: whenever
no unit raises a foreign exception the batch completes with exactly one
outcome per unit, in request order; and in the concrete count-3 run with unit
index 1 forced to fail, the outcome sequence is success, failure, success —
not an aborted batch. -/
theorem c2_batch_isolation :
    (∀ (u : Nat → UnitResult) (count : Nat), (∀ i, u i ≠ .raises .other) →
        runBatch count u = ((List.range count).map (outcomeOf u), none)) ∧
    cli { release := some "11.1-RELEASE", template := none, count := 3, props := [],
          name := none, basejail := false, basejailType := none, noFetch := false }
        { hostReleaseVersion := "x", releaseStatus := fun _ => ⟨true, true⟩,
          unitResult := fun i => if i = 1 then .raises .iocage else .ok } =
      .done 0 [.success 0, .failure 1, .success 2] 0 [] (.release "11.1-RELEASE") := by
  constructor
  · intro u count h
    have htot := runBatchAux_total u h count 0
    simpa [runBatch] using htot
  · decide

theorem c2_batch_isolation_witness :
    runBatch 3 (fun i => if i = 1 then .raises .iocage else .ok) =
      ([.success 0, .failure 1, .success 2], none) := by
  rw [c2_batch_isolation.1 (fun i => if i = 1 then .raises .iocage else .ok) 3
    (by intro i; dsimp only; split <;> simp)]
  decide

/-- C4: decoding the encoding of a property store yields the store unchanged:
the round-trip law of the structured-text codec, for every store of
representable values. -/
theorem c4_codec_roundtrip (s : PropertyStore) :
    ConfigJSON.map_input (ConfigJSON.map_output s) = some s :=
  decodeObj_encObj s

/-- C3 counterexample: a request carrying both a release selector and a
template selector is not rejected: the run resolves the release source,
ignores the template, and creates a unit. -/
theorem c3_both_selectors_counterexample :
    cli { release := some "11.1-RELEASE", template := some "mytemplate", count := 1,
          props := [], name := none, basejail := false, basejailType := none,
          noFetch := false }
        { hostReleaseVersion := "x", releaseStatus := fun _ => ⟨true, true⟩,
          unitResult := fun _ => .ok } =
      .done 0 [.success 0] 0 [] (.release "11.1-RELEASE") := by decide

/-- C3 amended: when a release selector is present, the template selector is
ignored entirely: the run equals the same request without a template. The
code contains no mutual-exclusivity rejection. -/
theorem c3_release_shadows_template (args : CliArgs) (env : Env) (r : String)
    (h : args.release = some r) :
    cli args env = cli { args with template := none } env := by
  simp [cli, resolveSource, h]

theorem c3_release_shadows_template_witness :
    cli { release := some "11.1-RELEASE", template := some "mytemplate", count := 1,
          props := [], name := none, basejail := false, basejailType := none,
          noFetch := false }
        { hostReleaseVersion := "x", releaseStatus := fun _ => ⟨true, true⟩,
          unitResult := fun _ => .ok } =
      cli { release := some "11.1-RELEASE", template := none, count := 1,
            props := [], name := none, basejail := false, basejailType := none,
            noFetch := false }
          { hostReleaseVersion := "x", releaseStatus := fun _ => ⟨true, true⟩,
            unitResult := fun _ => .ok } :=
  c3_release_shadows_template _ _ "11.1-RELEASE" rfl

theorem resolveSource_fetch_le (rel tmpl : Option String) (nf : Bool) (env : Env)
    (pr : Resource × Nat) (h : resolveSource rel tmpl nf env = .ok pr) : pr.2 ≤ 1 := by
  cases rel with
  | some r =>
    simp only [resolveSource] at h
    split at h
    · cases h; simp
    · split at h
      · exact absurd h (by simp)
      · split at h
        · exact absurd h (by simp)
        · cases h; simp
  | none =>
    simp only [resolveSource] at h
    cases tmpl with
    | some t => cases h; simp
    | none => exact absurd h (by simp)

/-- C5: the source is resolved once, before the loop, and the fetch
collaborator runs at most once regardless of count: every run records a
fetch count of at most one; and a count-5 request against an
available-remote release with auto-fetch records exactly one fetch. -/
theorem c5_fetch_at_most_once :
    (∀ (args : CliArgs) (env : Env), fetchCountOf (cli args env) ≤ 1) ∧
    (∀ (args : CliArgs) (env : Env) (r : String), args.release = some r →
        (env.releaseStatus r).fetched = false →
        (env.releaseStatus r).available = true →
        args.noFetch = false → args.count = 5 →
        fetchCountOf (cli args env) = 1) := by
  constructor
  · intro args env
    simp only [cli]
    split
    · simp [fetchCountOf]
    · rename_i pr hres
      have hle := resolveSource_fetch_le _ _ _ _ pr hres
      split
      · simpa [fetchCountOf] using hle
      · split
        · simpa [fetchCountOf] using hle
        · split <;> simpa [fetchCountOf] using hle
  · intro args env r h1 h2 h3 h4 _
    simp only [cli, h1, resolveSource, h2, h3, h4, Bool.not_true, Bool.not_false,
      Bool.false_eq_true, if_false, ite_false, ite_true]
    split
    · rfl
    · split
      · rfl
      · split <;> rfl

theorem c5_fetch_at_most_once_witness :
    fetchCountOf
        (cli { release := some "11.1-RELEASE", template := none, count := 5,
               props := [], name := none, basejail := false, basejailType := none,
               noFetch := false }
             { hostReleaseVersion := "x", releaseStatus := fun _ => ⟨false, true⟩,
               unitResult := fun _ => .ok }) = 1 ∧
    fetchCountOf
        (cli { release := some "11.1-RELEASE", template := none, count := 5,
               props := [], name := none, basejail := false, basejailType := none,
               noFetch := false }
             { hostReleaseVersion := "x", releaseStatus := fun _ => ⟨false, true⟩,
               unitResult := fun _ => .ok }) ≤ 1 :=
  ⟨c5_fetch_at_most_once.2 _ _ "11.1-RELEASE" rfl rfl rfl rfl rfl,
   c5_fetch_at_most_once.1 _ _⟩

/-- C6: a release selector whose release neither is fetched nor exists fails
as source-not-found with zero fetch invocations; an available-remote release
under `--no-fetch` fails as source-not-fetched with zero fetch invocations. -/
theorem c6_resolution_failures :
    (∀ (args : CliArgs) (env : Env) (r : String), args.release = some r →
        (env.releaseStatus r).fetched = false →
        (env.releaseStatus r).available = false →
        cli args env = .exitErr (.sourceNotFound r) 0) ∧
    (∀ (args : CliArgs) (env : Env) (r : String), args.release = some r →
        (env.releaseStatus r).fetched = false →
        (env.releaseStatus r).available = true →
        args.noFetch = true →
        cli args env = .exitErr (.sourceNotFetched r) 0) := by
  constructor
  · intro args env r h1 h2 h3
    simp [cli, resolveSource, h1, h2, h3]
  · intro args env r h1 h2 h3 h4
    simp [cli, resolveSource, h1, h2, h3, h4]

theorem c6_resolution_failures_witness :
    cli { release := some "12.0-RELEASE", template := none, count := 1, props := [],
          name := none, basejail := false, basejailType := none, noFetch := false }
        { hostReleaseVersion := "x", releaseStatus := fun _ => ⟨false, false⟩,
          unitResult := fun _ => .ok } =
      .exitErr (.sourceNotFound "12.0-RELEASE") 0 ∧
    cli { release := some "12.0-RELEASE", template := none, count := 1, props := [],
          name := none, basejail := false, basejailType := none, noFetch := true }
        { hostReleaseVersion := "x", releaseStatus := fun _ => ⟨false, true⟩,
          unitResult := fun _ => .ok } =
      .exitErr (.sourceNotFetched "12.0-RELEASE") 0 :=
  ⟨c6_resolution_failures.1 _ _ _ rfl rfl rfl,
   c6_resolution_failures.2 _ _ _ rfl rfl rfl rfl⟩

/-- C7: a `key=value` token, split at its first `=`, sets the named property
to the value text — `tag=web01` sets `tag` to `web01` — and a token without
`=` fails as a malformed property token, exiting before the batch loop
creates any instance. -/
theorem c7_override_tokens :
    (∀ (jd : PropertyStore) (k v : List Char) (rest : List (List Char)), '=' ∉ k →
        applyProps jd ((k ++ '=' :: v) :: rest) =
          applyProps (dictSet jd k (.str v)) rest) ∧
    applyProps [] ["tag=web01".toList] =
      .ok [("tag".toList, .str "web01".toList)] ∧
    (∀ (jd : PropertyStore) (tok : List Char) (rest : List (List Char)), '=' ∉ tok →
        applyProps jd (tok :: rest) = .error (.malformedPropertyToken tok)) ∧
    (∀ (args : CliArgs) (env : Env) (r : String) (tok : List Char)
        (rest : List (List Char)),
        args.release = some r → (env.releaseStatus r).fetched = true →
        args.basejailType = none → args.props = tok :: rest → '=' ∉ tok →
        cli args env = .exitErr (.malformedPropertyToken tok) 0) := by
  refine ⟨?_, rfl, ?_, ?_⟩
  · intro jd k v rest h
    simp [applyProps, splitEq_key k v h]
  · intro jd tok rest h
    simp [applyProps, splitEq_none tok h]
  · intro args env r tok rest h1 h2 h3 h4 h5
    simp [cli, resolveSource, applyProps, h1, h2, h3, h4, splitEq_none tok h5]

theorem c7_override_tokens_witness :
    applyProps [] (("tag".toList ++ '=' :: "web01".toList) :: []) =
      applyProps (dictSet [] "tag".toList (.str "web01".toList)) [] ∧
    cli { release := some "11.1-RELEASE", template := none, count := 2,
          props := ["tag".toList], name := none, basejail := false,
          basejailType := none, noFetch := false }
        { hostReleaseVersion := "x", releaseStatus := fun _ => ⟨true, true⟩,
          unitResult := fun _ => .ok } =
      .exitErr (.malformedPropertyToken "tag".toList) 0 :=
  ⟨c7_override_tokens.1 [] "tag".toList "web01".toList [] (by decide),
   c7_override_tokens.2.2.2 _ _ "11.1-RELEASE" "tag".toList [] rfl rfl rfl rfl
     (by decide)⟩

theorem strip_spaces_of_digits (l : List Char) (h : l.all isDig = true) :
    ((l.dropWhile (· = ' ')).reverse.dropWhile (· = ' ')).reverse = l := by
  have hwd : ∀ (m : List Char), m.all isDig = true → m.dropWhile (· = ' ') = m := by
    intro m hm
    cases m with
    | nil => rfl
    | cons c cs =>
      have hc : isDig c = true := by
        simp only [List.all_cons, Bool.and_eq_true] at hm
        exact hm.1
      have hne : ¬(c = ' ') := by
        rintro rfl
        exact absurd hc (by decide)
      simp [List.dropWhile_cons, hne]
  have hrev : l.reverse.all isDig = true := by
    rw [List.all_eq_true] at h ⊢
    intro x hx
    exact h x (List.mem_reverse.mp hx)
  rw [hwd l h, hwd l.reverse hrev, List.reverse_reverse]

/-- C8: `--count` normalization removes digit-group commas and converts the
remaining digit run to its integer value — `1,000` becomes `1000` — and
non-numeric input such as `abc` is rejected at the CLI layer before reaching
the workflow. -/
theorem c8_count_normalization :
    validate_count "1,000" = .ok 1000 ∧
    validate_count "abc" = .error () ∧
    (∀ s : String, (s.toList.filter (· ≠ ',')).all isDig = true →
        s.toList.filter (· ≠ ',') ≠ [] →
        validate_count s = .ok ((natVal (s.toList.filter (· ≠ ',')) : Int))) := by
  refine ⟨rfl, rfl, ?_⟩
  intro s h1 h2
  have hstrip := strip_spaces_of_digits _ h1
  obtain ⟨c, cs, hc⟩ := List.exists_cons_of_ne_nil h2
  rw [hc] at hstrip h1
  have hcd : isDig c = true := by
    have h3 := h1
    rw [List.all_cons, Bool.and_eq_true] at h3
    exact h3.1
  have hm : c ≠ '-' := by
    rintro rfl
    exact absurd hcd (by decide)
  have hp : c ≠ '+' := by
    rintro rfl
    exact absurd hcd (by decide)
  simp only [validate_count, pyInt, hc, hstrip]
  rw [if_neg hm, if_neg hp, if_pos h1]

theorem c8_count_normalization_witness :
    validate_count "2,500" = .ok ((natVal ("2,500".toList.filter (· ≠ ',')) : Int)) :=
  c8_count_normalization.2.2 "2,500" (by decide) (by decide)

/-- C9 counterexample: a request with an explicit name and count 2 is not
rejected: the run completes both units and the shared `jail_data` carries the
name for every unit. -/
theorem c9_name_count_counterexample :
    cli { release := some "11.1-RELEASE", template := none, count := 2, props := [],
          name := some "web01", basejail := false, basejailType := none,
          noFetch := false }
        { hostReleaseVersion := "x", releaseStatus := fun _ => ⟨true, true⟩,
          unitResult := fun _ => .ok } =
      .done 0 [.success 0, .success 1] 0 [("name".toList, .str "web01".toList)]
        (.release "11.1-RELEASE") := by decide

/-- C9 amended: `cli` performs no name-versus-count validation: a nonempty
explicit name is stored once in the shared `jail_data` whatever the count,
and the batch then runs all `count` units from that same dict. -/
theorem c9_name_applied_regardless_of_count (args : CliArgs) (env : Env)
    (n r : String) (h1 : args.name = some n) (h2 : n ≠ "")
    (h3 : args.release = some r) (h4 : (env.releaseStatus r).fetched = true)
    (h5 : args.basejailType = none) (h6 : args.basejail = false)
    (h7 : args.props = []) (h8 : ∀ i, env.unitResult i ≠ .raises .other) :
    cli args env =
      .done 0 ((List.range args.count).map (outcomeOf env.unitResult)) 0
        [("name".toList, .str n.toList)] (.release r) := by
  have hbatch : runBatch args.count env.unitResult =
      ((List.range args.count).map (outcomeOf env.unitResult), none) := by
    have := runBatchAux_total env.unitResult h8 args.count 0
    simpa [runBatch] using this
  simp [cli, resolveSource, applyProps, dictSet, h1, h2, h3, h4, h5, h6, h7, hbatch]

theorem c9_name_applied_witness :
    cli { release := some "11.1-RELEASE", template := none, count := 3, props := [],
          name := some "web01", basejail := false, basejailType := none,
          noFetch := false }
        { hostReleaseVersion := "x", releaseStatus := fun _ => ⟨true, true⟩,
          unitResult := fun _ => .ok } =
      .done 0 ((List.range 3).map (outcomeOf fun _ => .ok)) 0
        [("name".toList, .str "web01".toList)] (.release "11.1-RELEASE") :=
  c9_name_applied_regardless_of_count _ _ "web01" "11.1-RELEASE" rfl (by decide)
    rfl rfl rfl rfl rfl
    (by intro i h
        exact absurd h (show ¬(UnitResult.ok = UnitResult.raises Exc.other) by decide))

/-- C10: the loop's fault isolation covers only `IocageException`: when unit
`i` raises any other exception it escapes the loop, unit `i` logs no outcome,
and units `i+1..count-1` are never attempted; on a clean request the whole
run ends as an uncaught propagation carrying only the outcomes of units
before `i`. -/
theorem c10_foreign_exception_escapes :
    (∀ (u : Nat → UnitResult) (count i : Nat), i < count →
        u i = .raises .other → (∀ j, j < i → u j ≠ .raises .other) →
        runBatch count u = ((List.range i).map (outcomeOf u), some .other)) ∧
    (∀ args env r i, args.release = some r →
        (env.releaseStatus r).fetched = true →
        args.basejailType = none → args.props = [] →
        args.name = none → args.basejail = false →
        i < args.count → env.unitResult i = .raises .other →
        (∀ j, j < i → env.unitResult j ≠ .raises .other) →
        cli args env =
          .uncaught .other ((List.range i).map (outcomeOf env.unitResult)) 0
            [] (.release r)) := by
  constructor
  · intro u count i h1 h2 h3
    have hst := runBatchAux_stop u i count 0 h1 (by simpa using h2)
      (by intro j hj; simpa using h3 j hj)
    simpa [runBatch] using hst
  · intro args env r i h1 h2 h3 h4 h5 h6 h7 h8 h9
    have hst : runBatch args.count env.unitResult =
        ((List.range i).map (outcomeOf env.unitResult), some .other) := by
      have := runBatchAux_stop env.unitResult i args.count 0 h7 (by simpa using h8)
        (by intro j hj; simpa using h9 j hj)
      simpa [runBatch] using this
    simp [cli, resolveSource, applyProps, h1, h2, h3, h4, h5, h6, hst]

theorem c10_foreign_exception_escapes_witness :
    runBatch 3 (fun i => if i = 2 then .raises .other else .ok) =
      ([.success 0, .success 1], some .other) ∧
    cli { release := some "11.1-RELEASE", template := none, count := 3, props := [],
          name := none, basejail := false, basejailType := none, noFetch := false }
        { hostReleaseVersion := "x", releaseStatus := fun _ => ⟨true, true⟩,
          unitResult := fun i => if i = 2 then .raises .other else .ok } =
      .uncaught .other [.success 0, .success 1] 0 [] (.release "11.1-RELEASE") := by
  constructor
  · rw [c10_foreign_exception_escapes.1 (fun i => if i = 2 then .raises .other else .ok)
      3 2 (by omega) (by decide) (by intro j hj; interval_cases j <;> decide)]
    decide
  · rw [c10_foreign_exception_escapes.2
      { release := some "11.1-RELEASE", template := none, count := 3, props := [],
        name := none, basejail := false, basejailType := none, noFetch := false }
      { hostReleaseVersion := "x", releaseStatus := fun _ => ⟨true, true⟩,
        unitResult := fun i => if i = 2 then .raises .other else .ok }
      "11.1-RELEASE" 2 rfl rfl rfl rfl rfl rfl (by decide) (by decide)
      (by intro j hj; interval_cases j <;> decide)]
    decide

end Iocage
